import Mathlib

/-!
Verification of the guest-memory marshaling layer of `src/wasm/wasm.go`.

Modelling conventions, fixed once for the whole file:

* Guest linear memory (`instance.Memory.Data()`) is a `List ℕ` of bytes; its
  length is the current memory size.
* Go `int64` / `uint64` values are represented by their 64-bit patterns, i.e.
  natural numbers below `2^64`; the signed value of a pattern is recovered by
  `toInt64`.  The guest allocator's `i32` result is likewise kept as its 32-bit
  pattern (a natural below `2^32`), produced by `res.ToI32()` which truncates to
  32 bits; its signed value is negative exactly when the pattern is `≥ 2^31`.
* Go functions that can return an `error` are modelled in `GoRes`, which also
  has a `panic` constructor for Go runtime faults (out-of-range slice
  expressions, calling a `nil` function from the export map, `make` with a
  negative length).  A Go `(value, error)` return is a `GoRes` value.
* The wasm engine (wasmer) is an external collaborator.  An `Instance` carries
  the data the source reads from it: the linear memory and the export table.
  Each export is `none` when the module does not export that name.  A guest
  call either traps (`Except.error`, propagated by the source as an `err`) or
  returns its `i64`/`i32` result; the guest allocator additionally evolves a
  private allocator state (a `ℕ`) so that successive calls can return different
  offsets.  Guest calls are modelled as leaving the host-visible memory bytes
  unchanged; bytes a guest wants to hand to the host are part of the instance's
  memory from the start.
-/

/-- Result of running a piece of Go code: normal value, returned `error`, or
runtime panic. -/
inductive GoRes (α : Type) where
  | ok : α → GoRes α
  | err : String → GoRes α
  | panic : String → GoRes α
deriving DecidableEq

/-- One live wasmer instance: linear memory plus the export table
(`wasm.Instance` as used by the source).  `allocSt` is the guest allocator's
private state. -/
structure Instance where
  memory : List ℕ
  allocSt : ℕ
  allocExp : Option (ℕ → ℕ → Except String (ℕ × ℕ))
  nameExp : Option (Except String ℕ)
  paramsInfoExp : Option (Except String ℕ)
  parseParamsExp : Option (ℕ → Except String ℕ)
  rawDataInfoExp : Option (Except String ℕ)
  parseRawDataExp : Option (ℕ → ℕ → Except String ℕ)
  prepareExp : Option (ℕ → Except String ℕ)
  executeExp : Option (ℕ → ℕ → Except String ℕ)

/-- Signed value of a 64-bit pattern (two's complement). -/
def toInt64 (d : ℕ) : ℤ := if d < 2^63 then (d : ℤ) else (d : ℤ) - 2^64

/-- Sign extension of a 32-bit pattern to a 64-bit pattern: Go's
`int64(ptr)` where `ptr` is an `int32`. -/
def signExt32 (p : ℕ) : ℕ := if p < 2^31 then p else p + (2^64 - 2^32)

/-- Line 23 / line 44 of the source: `int64(sz<<32) | int64(ptr)`, on 64-bit
patterns.  `sz` is a Go `int` (64-bit, so the shift wraps modulo `2^64`) and
`p` is the 32-bit pattern of the `int32` offset. -/
def packDesc (sz p : ℕ) : ℕ := (sz * 2^32) % 2^64 ||| signExt32 p

/-- Line 48, first component: `int(ptr >> 32)`.  `>>` on `int64` is an
arithmetic shift, i.e. floor division of the signed value by `2^32`, which
`Int` division (Euclidean) computes for a positive divisor. -/
def descSz (d : ℕ) : ℤ := toInt64 d / 2^32

/-- Line 48, second component: `ptr & ((1 << 32) - 1)`, the low 32 bits; as an
`int64` value this is nonnegative, so it is a `ℕ`. -/
def descOff (d : ℕ) : ℕ := d % 2^32

/-- Go's `copy(mem[p:], data)` after bounds checks have ensured
`p + data.length ≤ mem.length`: overwrite the range starting at `p`. -/
def writeBytes (mem : List ℕ) (p : ℕ) (data : List ℕ) : List ℕ :=
  mem.take p ++ data ++ mem.drop (p + data.length)

/-- The 8 bytes `binary.LittleEndian.PutUint64` stores for the pattern `v`. -/
def le64 (v : ℕ) : List ℕ :=
  [v % 2^8, v / 2^8 % 2^8, v / 2^16 % 2^8, v / 2^24 % 2^8,
   v / 2^32 % 2^8, v / 2^40 % 2^8, v / 2^48 % 2^8, v / 2^56 % 2^8]

/-- `binary.LittleEndian.PutUint64(mem[p:p+8], v)`. -/
def putU64 (mem : List ℕ) (p : ℕ) (v : ℕ) : List ℕ := writeBytes mem p (le64 v)

/-- Little-endian decoding of a byte list (how a guest reads a stored
descriptor back). -/
def leDecode (bs : List ℕ) : ℕ := bs.foldr (fun b acc => b + 2^8 * acc) 0

/-- The 8-byte little-endian value stored in `mem` at offset `p`. -/
def readU64LE (mem : List ℕ) (p : ℕ) : ℕ := leDecode ((mem.drop p).take 8)

/-- The byte range `[p, p+n)` of `mem`. -/
def sliceAt (mem : List ℕ) (p n : ℕ) : List ℕ := (mem.drop p).take n

/-- Lines 13 / 28: `instance.Exports["__allocate"](sz)` followed by
`res.ToI32()`.  The export map is indexed without a nil check, so a missing
`__allocate` is a call of a nil function: a runtime panic. -/
def callAllocate (inst : Instance) (sz : ℕ) : GoRes (ℕ × Instance) :=
  match inst.allocExp with
  | none => .panic "call of nil function"
  | some f =>
    match f inst.allocSt sz with
    | .error e => .err e
    | .ok (r, st) => .ok (r % 2^32, { inst with allocSt := st })

/-- Lines 11–24 of the source (`allocateInner`): ask the guest to allocate
`len(data)` bytes, slice memory at the returned offset (`Data()[ptr:]` panics
when the `int32` offset is negative, i.e. pattern `≥ 2^31`, or past the end of
memory), validate the size, copy the bytes in, and return the packed
descriptor. -/
def allocateInner (inst : Instance) (data : List ℕ) : GoRes (ℕ × Instance) :=
  let sz := data.length
  match callAllocate inst sz with
  | .panic s => .panic s
  | .err e => .err e
  | .ok (ptr, inst1) =>
    if 2^31 ≤ ptr ∨ inst1.memory.length < ptr then .panic "slice bounds out of range"
    else if inst1.memory.length - ptr < sz then .err "allocateInner: invalid memory size"
    else .ok (packDesc sz ptr, { inst1 with memory := writeBytes inst1.memory ptr data })

/-- The `for idx, each := range data` loop of lines 37–43: store each element
with `allocateInner`, then write its descriptor at table offset `8*idx`
(`binary.LittleEndian.PutUint64(mem[8*idx:8*idx+8], uint64(loc))`, an absolute
write at `tp + 8*idx` since `mem` aliases the instance memory from `tp` on). -/
def allocLoop (inst : Instance) (tp : ℕ) (idx : ℕ) (rest : List (List ℕ)) : GoRes Instance :=
  match rest with
  | [] => .ok inst
  | d :: rest' =>
    match allocateInner inst d with
    | .panic s => .panic s
    | .err e => .err e
    | .ok (loc, inst1) =>
      allocLoop { inst1 with memory := putU64 inst1.memory (tp + 8*idx) loc } tp (idx+1) rest'

/-- Lines 26–45 of the source (`allocate`): allocate `8*len(data)` bytes for
the descriptor table, bounds-check it, run the element loop, and return
`int64(sz<<32) | int64(ptr)` for the table. -/
def allocate (inst : Instance) (data : List (List ℕ)) : GoRes (ℕ × Instance) :=
  let sz := data.length
  match callAllocate inst (8 * sz) with
  | .panic s => .panic s
  | .err e => .err e
  | .ok (ptr, inst1) =>
    if 2^31 ≤ ptr ∨ inst1.memory.length < ptr then .panic "slice bounds out of range"
    else if inst1.memory.length - ptr < 8 * sz then .err "allocate: invalid memory size"
    else
      match allocLoop inst1 ptr 0 data with
      | .panic s => .panic s
      | .err e => .err e
      | .ok inst2 => .ok (packDesc sz ptr, inst2)

/-- Lines 47–58 of the source (`parseOutput`): unpack the descriptor, slice
memory at the offset (`Data()[pointer:]` panics when the offset lies past the
end of memory), check `len(mem) < sz` (an `int` comparison, so a negative `sz`
passes it), and copy `sz` bytes out (`make([]byte, sz)` panics when `sz` is
negative). -/
def parseOutput (inst : Instance) (d : ℕ) : GoRes (List ℕ) :=
  let sz := descSz d
  let pointer := descOff d
  if inst.memory.length < pointer then .panic "slice bounds out of range"
  else
    let mem := inst.memory.drop pointer
    if (mem.length : ℤ) < sz then .err "parseOutput: invalid memory size"
    else if sz < 0 then .panic "makeslice: len out of range"
    else .ok (mem.take sz.toNat)

/-- Lines 60–62 of the source. -/
def storeParams (inst : Instance) (params : List ℕ) : GoRes (ℕ × Instance) :=
  allocateInner inst params

/-- Byte-level printability test used by `Name`'s validation loop.  The source
runs `unicode.IsPrint` over the characters of `string(rawResult)`; the unicode
tables live outside this repository, so the predicate is modelled on the ASCII
plane, where `range` over the string yields each byte as one character and
`IsPrint` holds exactly for `0x20 ≤ b ≤ 0x7e`.  Theorems about `Name` restrict
the buffer to ASCII bytes, where this model is exact. -/
def goIsPrint (b : ℕ) : Bool := 0x20 ≤ b && b ≤ 0x7e

/-- Lines 64–88 of the source (`Name`).  The argument is the result of
`wasm.NewInstance(code)`; strings are returned as their byte lists. -/
def Name (m : Except String Instance) : GoRes (List ℕ) :=
  match m with
  | .error e => .err e
  | .ok inst =>
    match inst.nameExp with
    | none => .err "__name not implemented"
    | some call =>
      match call with
      | .error e => .err e
      | .ok ptr =>
        match parseOutput inst ptr with
        | .panic s => .panic s
        | .err e => .err e
        | .ok raw => if raw.all goIsPrint then .ok raw else .err "Invalid name character"

/-- Lines 90–105 of the source (`ParamsInfo`). -/
def ParamsInfo (m : Except String Instance) : GoRes (List ℕ) :=
  match m with
  | .error e => .err e
  | .ok inst =>
    match inst.paramsInfoExp with
    | none => .err "__params_info not implemented"
    | some call =>
      match call with
      | .error e => .err e
      | .ok ptr => parseOutput inst ptr

/-- Lines 107–126 of the source (`ParseParams`): write the params buffer, then
look up and call `__parse_params`. -/
def ParseParams (m : Except String Instance) (params : List ℕ) : GoRes (List ℕ) :=
  match m with
  | .error e => .err e
  | .ok inst =>
    match storeParams inst params with
    | .panic s => .panic s
    | .err e => .err e
    | .ok (paramsInput, inst1) =>
      match inst1.parseParamsExp with
      | none => .err "__parse_params not implemented"
      | some f =>
        match f paramsInput with
        | .error e => .err e
        | .ok ptr => parseOutput inst1 ptr

/-- Lines 128–143 of the source (`RawDataInfo`). -/
def RawDataInfo (m : Except String Instance) : GoRes (List ℕ) :=
  match m with
  | .error e => .err e
  | .ok inst =>
    match inst.rawDataInfoExp with
    | none => .err "__raw_data_info not implemented"
    | some call =>
      match call with
      | .error e => .err e
      | .ok ptr => parseOutput inst ptr

/-- Lines 145–165 of the source (`ParseRawData`).  Faithful to the source's
error handling: the `err` from `storeParams` is immediately overwritten by the
`err` of the data-buffer write and is never checked, and on a params-write
error the zero value `paramsInput = 0` flows on into the guest call.  A panic
from either write still propagates (a Go panic is not an `err`). -/
def ParseRawData (m : Except String Instance) (params data : List ℕ) : GoRes (List ℕ) :=
  match m with
  | .error e => .err e
  | .ok inst =>
    match storeParams inst params with
    | .panic s => .panic s
    | res1 =>
      let paramsInput : ℕ := match res1 with | .ok (v, _) => v | _ => 0
      let instA : Instance := match res1 with | .ok (_, i) => i | _ => inst
      match allocateInner instA data with
      | .panic s => .panic s
      | .err e => .err e
      | .ok (dataInput, inst1) =>
        match inst1.parseRawDataExp with
        | none => .err "__parse_raw_data not implemented"
        | some f =>
          match f paramsInput dataInput with
          | .error e => .err e
          | .ok ptr => parseOutput inst1 ptr

/-- Lines 167–186 of the source (`Prepare`). -/
def Prepare (m : Except String Instance) (params : List ℕ) : GoRes (List ℕ) :=
  match m with
  | .error e => .err e
  | .ok inst =>
    match storeParams inst params with
    | .panic s => .panic s
    | .err e => .err e
    | .ok (paramsInput, inst1) =>
      match inst1.prepareExp with
      | none => .err "__prepare not implemented"
      | some f =>
        match f paramsInput with
        | .error e => .err e
        | .ok ptr => parseOutput inst1 ptr

/-- Lines 188–211 of the source (`Execute`): write the params buffer, write the
input buffer array, then look up and call `__execute`. -/
def Execute (m : Except String Instance) (params : List ℕ) (inputs : List (List ℕ)) :
    GoRes (List ℕ) :=
  match m with
  | .error e => .err e
  | .ok inst =>
    match storeParams inst params with
    | .panic s => .panic s
    | .err e => .err e
    | .ok (paramsInput, inst1) =>
      match allocate inst1 inputs with
      | .panic s => .panic s
      | .err e => .err e
      | .ok (wasmInput, inst2) =>
        match inst2.executeExp with
        | none => .err "__execute not implemented"
        | some f =>
          match f paramsInput wasmInput with
          | .error e => .err e
          | .ok ptr => parseOutput inst2 ptr

/-- An instance carrying only a memory; used to read guest memory back the way
a guest would (for round-trip statements). -/
def memInst (m : List ℕ) : Instance :=
  { memory := m, allocSt := 0, allocExp := none, nameExp := none,
    paramsInfoExp := none, parseParamsExp := none, rawDataInfoExp := none,
    parseRawDataExp := none, prepareExp := none, executeExp := none }

/-- Dereference element `i` of a descriptor table at `tp`: read the 8-byte
little-endian descriptor at `tp + 8*i` and parse the range it addresses. -/
def readElem (m : List ℕ) (tp i : ℕ) : GoRes (List ℕ) :=
  parseOutput (memInst m) (readU64LE m (tp + 8*i))

/-- Total byte size of a buffer sequence. -/
def totalSize (data : List (List ℕ)) : ℕ := (data.map List.length).sum

/-- Bytes occupied by the elements preceding index `j`. -/
def sizesBefore (data : List (List ℕ)) (j : ℕ) : ℕ := ((data.take j).map List.length).sum

/-- A well-behaved guest allocator: hands out consecutive regions starting at
its current state (the spec's end-to-end scenario allocator). -/
def bumpAlloc (st sz : ℕ) : Except String (ℕ × ℕ) := .ok (st, st + sz)

/-- The memory produced by the element loop of `allocate` under `bumpAlloc`:
element bytes at the bump pointer, descriptor at table slot `idx`, and so on. -/
def layoutWrite (m : List ℕ) (tp idx s : ℕ) (rest : List (List ℕ)) : List ℕ :=
  match rest with
  | [] => m
  | d :: rest' =>
    layoutWrite (putU64 (writeBytes m s d) (tp + 8*idx) (packDesc d.length s))
      tp (idx+1) (s + d.length) rest'

/-! ### Concrete instances used to exercise the theorems on closed inputs -/

/-- A memory of `2^31` zero bytes: the smallest memory in which a buffer whose
size overflows the signed 32-bit length field can be stored in bounds. -/
def bigMem : List ℕ := List.replicate (2^31) 0

/-- Instance over `bigMem` whose allocator always hands out offset 0 (in
bounds for any request up to the memory size). -/
def bigInstC2 : Instance :=
  { memInst bigMem with allocExp := some (fun st _ => .ok (0, st)) }

/-- Allocator that serves the first request (the table) at offset 0 and traps
on every later request (used to exercise atomic failure of `allocate`). -/
def c6alloc : ℕ → ℕ → Except String (ℕ × ℕ) :=
  fun st _ => if st == 0 then .ok (0, 1) else .error "boom"

/-- Instance whose allocator fails on every allocation after the table. -/
def instC6 : Instance := { memInst (List.replicate 16 0) with allocExp := some c6alloc }

/-- Allocator that traps exactly on 1-byte requests (the params buffer below)
and serves every other request at offset 0. -/
def pfailAlloc : ℕ → ℕ → Except String (ℕ × ℕ) :=
  fun st sz => if sz == 1 then .error "params trap" else .ok (0, st)

/-- Instance on which the params write fails but the data write succeeds, with
`__parse_raw_data` exported (returning the empty-range descriptor 0). -/
def instC7 : Instance :=
  { memInst [0, 0, 0, 0] with
    allocExp := some pfailAlloc, parseRawDataExp := some (fun _ _ => .ok 0) }

/-- Instance with a working allocator and no other export. -/
def instC8 : Instance := { memInst (List.replicate 64 0) with allocExp := some bumpAlloc }

/-- Instance whose `__name` export addresses the printable ASCII bytes
`[72, 105, 33]` at offset 0. -/
def instC9 : Instance :=
  { memInst [72, 105, 33] with nameExp := some (.ok (packDesc 3 0)) }

/-- Instance whose `__name` export addresses bytes containing the control
character `0x07`. -/
def instC9bad : Instance :=
  { memInst [72, 7, 33] with nameExp := some (.ok (packDesc 3 0)) }

/-- Instance on which the params write fails, the data write succeeds, and
`__parse_raw_data` is not exported. -/
def instC10 : Instance :=
  { memInst [0, 0, 0, 0] with
    allocExp := some (fun st sz => if sz == 1 then .error "pboom" else .ok (0, st)) }

/-- Instance whose allocator always traps (every input write fails). -/
def instC10A : Instance :=
  { memInst [0, 0, 0, 0] with allocExp := some (fun _ _ => .error "wA") }

/-- Instance whose allocator serves the 1-byte params write and traps on the
data write. -/
def instC10B : Instance :=
  { memInst [0, 0, 0, 0] with
    allocExp := some (fun st sz => if sz == 1 then .ok (0, st) else .error "wB") }

/-- Instance whose allocator serves the 1-byte params write and traps on the
8-byte descriptor-table request. -/
def instC10C : Instance :=
  { memInst [0, 0, 0, 0] with
    allocExp := some (fun st sz => if sz == 1 then .ok (0, st) else .error "wC") }

/-- Instance with a bump allocator and 32 bytes of memory (array round trip). -/
def instC4 : Instance := { memInst (List.replicate 32 0) with allocExp := some bumpAlloc }

/-- Instance with a bump allocator and 24 bytes of memory. -/
def instC5w : Instance := { memInst (List.replicate 24 0) with allocExp := some bumpAlloc }

/-- Instance with a bump allocator and 16 bytes of memory. -/
def instC5x : Instance := { memInst (List.replicate 16 0) with allocExp := some bumpAlloc }

/-! ### Arithmetic facts about the descriptor codec -/

/-- Bits of `n * 2^w` and of `p < 2^w` are disjoint, so their `or` is their
sum. -/
theorem lor_mul_pow_add (w n p : ℕ) (hp : p < 2^w) : (n * 2^w) ||| p = n * 2^w + p := by
  apply Nat.eq_of_testBit_eq
  intro i
  rw [Nat.testBit_lor]
  rcases lt_or_ge i w with hi | hi
  · have h1 : (n * 2^w).testBit i = false := by
      rw [← Nat.shiftLeft_eq, Nat.testBit_shiftLeft]
      simp [Nat.not_le.mpr hi]
    rw [h1, Bool.false_or, Nat.testBit_to_div_mod, Nat.testBit_to_div_mod]
    congr 1
    have h2 : n * 2^w + p = p + n * 2^(w - i - 1) * 2 * 2^i := by
      have : 2^w = 2^(w - i - 1) * 2 * 2^i := by
        rw [mul_assoc, ← pow_succ', ← pow_add]
        congr 1
        omega
      rw [this]
      ring
    rw [h2, Nat.add_mul_div_right _ _ (Nat.two_pow_pos i), Nat.add_mul_mod_self_right]
  · have h1 : p.testBit i = false := by
      rw [Nat.testBit_to_div_mod]
      have : p / 2^i = 0 := Nat.div_eq_of_lt (lt_of_lt_of_le hp (Nat.pow_le_pow_right (by omega) hi))
      simp [this]
    have h2 : (n * 2^w).testBit i = n.testBit (i - w) := by
      rw [← Nat.shiftLeft_eq, Nat.testBit_shiftLeft]
      simp [hi]
    rw [h1, Bool.or_false, h2, Nat.testBit_to_div_mod, Nat.testBit_to_div_mod]
    congr 1
    have h3 : (n * 2^w + p) / 2^i = n / 2^(i - w) := by
      have hsplit : 2^i = 2^w * 2^(i - w) := by
        rw [← pow_add]
        congr 1
        omega
      rw [hsplit, ← Nat.div_div_eq_div_mul]
      have : (n * 2^w + p) / 2^w = n := by
        rw [Nat.add_comm, Nat.add_mul_div_right _ _ (Nat.two_pow_pos w),
          Nat.div_eq_of_lt hp, Nat.zero_add]
      rw [this]
    rw [h3]

/-- On in-range nonnegative fields the pack of line 23 is plain arithmetic. -/
theorem packDesc_eq (sz p : ℕ) (hsz : sz < 2^31) (hp : p < 2^31) :
    packDesc sz p = sz * 2^32 + p := by
  unfold packDesc signExt32
  rw [if_pos hp, Nat.mod_eq_of_lt (by nlinarith [sz.lt_irrefl]), lor_mul_pow_add 32 sz p (by omega)]

/-- Unpacking the length field of an in-range packed descriptor. -/
theorem descSz_pack (sz p : ℕ) (hsz : sz < 2^31) (hp : p < 2^32) :
    descSz (sz * 2^32 + p) = sz := by
  unfold descSz toInt64
  rw [if_pos (by push_cast; nlinarith [sz.lt_irrefl])]
  push_cast
  omega

/-- Unpacking the offset field of an in-range packed descriptor. -/
theorem descOff_pack (sz p : ℕ) (hp : p < 2^32) :
    descOff (sz * 2^32 + p) = p := by
  unfold descOff
  omega

/-! ### Facts about in-bounds memory writes -/

/-- An in-bounds write preserves the memory size. -/
theorem writeBytes_length (mem data : List ℕ) (p : ℕ) (h : p + data.length ≤ mem.length) :
    (writeBytes mem p data).length = mem.length := by
  unfold writeBytes
  simp only [List.length_append, List.length_take, List.length_drop]
  omega

/-- Bytes strictly before the written range are untouched. -/
theorem writeBytes_getElem_before (mem data : List ℕ) (p q : ℕ)
    (hin : p + data.length ≤ mem.length) (hq : q < p) :
    (writeBytes mem p data)[q]? = mem[q]? := by
  unfold writeBytes
  rw [List.append_assoc, List.getElem?_append_left (by simp; omega), List.getElem?_take]
  simp [hq]

/-- Bytes at or past the end of the written range are untouched. -/
theorem writeBytes_getElem_after (mem data : List ℕ) (p q : ℕ)
    (hin : p + data.length ≤ mem.length) (hq : p + data.length ≤ q) :
    (writeBytes mem p data)[q]? = mem[q]? := by
  unfold writeBytes
  rw [List.append_assoc, List.getElem?_append_right (by simp; omega)]
  rw [List.getElem?_append_right (by simp; omega)]
  rw [List.getElem?_drop]
  congr 1
  simp only [List.length_take, List.length_append]
  omega

/-- Reading a slice element-wise. -/
theorem sliceAt_getElem (mem : List ℕ) (p n i : ℕ) :
    (sliceAt mem p n)[i]? = if i < n then mem[p + i]? else none := by
  unfold sliceAt
  rw [List.getElem?_take, List.getElem?_drop]

/-- Bytes inside the written range read back as the written data. -/
theorem writeBytes_getElem_inside (mem data : List ℕ) (p i : ℕ)
    (hin : p + data.length ≤ mem.length) (hi : i < data.length) :
    (writeBytes mem p data)[p + i]? = data[i]? := by
  unfold writeBytes
  have htk : (mem.take p).length = p := by simp; omega
  rw [List.append_assoc, List.getElem?_append_right (by rw [htk]; omega)]
  rw [htk, List.getElem?_append_left (by omega)]
  have he : p + i - p = i := by omega
  rw [he]

/-- The written range reads back as the written bytes. -/
theorem writeBytes_slice (mem data : List ℕ) (p : ℕ) (hin : p + data.length ≤ mem.length) :
    sliceAt (writeBytes mem p data) p data.length = data := by
  apply List.ext_getElem?
  intro i
  rw [sliceAt_getElem]
  by_cases hi : i < data.length
  · rw [if_pos hi, writeBytes_getElem_inside mem data p i hin hi]
  · rw [if_neg hi, eq_comm]
    exact List.getElem?_eq_none (by omega)

/-- Two equal-length in-bounds regions with equal bytes give equal slices. -/
theorem sliceAt_congr (m1 m2 : List ℕ) (p q n : ℕ)
    (h : ∀ i, i < n → m1[p + i]? = m2[q + i]?) :
    sliceAt m1 p n = sliceAt m2 q n := by
  apply List.ext_getElem?
  intro i
  rw [sliceAt_getElem, sliceAt_getElem]
  by_cases hi : i < n
  · simp only [hi, if_true]
    exact h i hi
  · simp [hi]

/-! ### Little-endian encode/decode -/

theorem le64_length (v : ℕ) : (le64 v).length = 8 := rfl

theorem leDecode_le64 (v : ℕ) (hv : v < 2^64) : leDecode (le64 v) = v := by
  unfold leDecode le64
  simp only [List.foldr]
  omega

/-! ### `parseOutput` on a well-formed descriptor -/

/-- Parsing a descriptor with in-range fields addressing an in-bounds region
returns exactly that region. -/
theorem parseOutput_ok (inst : Instance) (sz p : ℕ) (hsz : sz < 2^31) (hp : p < 2^31)
    (hb : p + sz ≤ inst.memory.length) :
    parseOutput inst (packDesc sz p) = .ok (sliceAt inst.memory p sz) := by
  unfold parseOutput
  rw [packDesc_eq sz p hsz hp, descSz_pack sz p hsz (by omega), descOff_pack sz p (by omega)]
  rw [if_neg (by omega)]
  rw [if_neg (by simp only [List.length_drop]; omega)]
  rw [if_neg (by omega)]
  simp [sliceAt]

/-- Successful run of `allocateInner`: the allocator returns an offset that is
nonnegative as an `int32` and leaves room for the data. -/
theorem allocateInner_ok (inst : Instance) (f : ℕ → ℕ → Except String (ℕ × ℕ))
    (data : List ℕ) (p st' : ℕ)
    (hexp : inst.allocExp = some f)
    (hcall : f inst.allocSt data.length = .ok (p, st'))
    (hp : p < 2^31)
    (hin : p + data.length ≤ inst.memory.length) :
    allocateInner inst data = .ok (packDesc data.length p,
      { inst with allocSt := st', memory := writeBytes inst.memory p data }) := by
  have hmod : p % 2^32 = p := Nat.mod_eq_of_lt (by omega)
  simp only [allocateInner, callAllocate, hexp, hcall, hmod]
  rw [if_neg (by omega), if_neg (by omega)]

/-- A descriptor whose signed length field is negative drives `parseOutput`
into the `make([]byte, sz)` panic (the `len(mem) < sz` check passes because
`sz` is negative). -/
theorem parseOutput_neg_sz (inst : Instance) (d : ℕ)
    (hoff : descOff d ≤ inst.memory.length)
    (hsz : descSz d < 0) :
    parseOutput inst d = .panic "makeslice: len out of range" := by
  simp only [parseOutput]
  rw [if_neg (by omega), if_neg (by simp only [List.length_drop]; omega), if_pos hsz]

/-! ### Claim C3: descriptor codec inverse law -/

/-- C3 (amended): the pack of line 23 and the unpack of line 48 are exact
inverses for all pairs with both fields below `2^31`, i.e. on the range where
the `int32` offset and the signed 32-bit length field are nonnegative. -/
theorem codec_inverse_on_int31_range (sz p : ℕ) (hsz : sz < 2^31) (hp : p < 2^31) :
    descSz (packDesc sz p) = sz ∧ descOff (packDesc sz p) = p := by
  rw [packDesc_eq sz p hsz hp]
  exact ⟨descSz_pack sz p hsz (by omega), descOff_pack sz p (by omega)⟩

theorem codec_inverse_on_int31_range_witness :
    descSz (packDesc 7 9) = 7 ∧ descOff (packDesc 7 9) = 9 :=
  codec_inverse_on_int31_range 7 9 (by decide) (by decide)

/-- C3 counterexample: for the 32-bit pair (length `0`, offset `2^31`) — the
offset's `int32` value is negative, so `int64(ptr)` sign-extends it — the
packed descriptor unpacks to length `-1` (pattern `0xFFFFFFFF`), not `0`:
pack/unpack are not inverses over the full 32-bit range of both fields. -/
theorem codec_not_inverse_at_offset_two_pow_31 :
    packDesc 0 (2^31) = 2^64 - 2^32 + 2^31 ∧
    descOff (packDesc 0 (2^31)) = 2^31 ∧
    descSz (packDesc 0 (2^31)) = -1 ∧ (-1 : ℤ) ≠ (0 : ℤ) :=
  ⟨by decide, by decide, by decide, by decide⟩

/-! ### Claim C1: bounds rejection in `parseOutput` -/

/-- C1 (amended): for every descriptor whose length field (read as the signed
high 32 bits) is nonnegative and whose offset lies within memory but whose
range `offset + length` exceeds the current memory size, `parseOutput` rejects
with the invalid-memory-bounds error — it neither truncates the range nor
reads out of bounds.  (When the offset alone lies past the end of memory the
source instead faults on the slice expression; see the counterexample.) -/
theorem parseOutput_rejects_overlong_range (inst : Instance) (d : ℕ)
    (hsz : 0 ≤ descSz d)
    (hoff : descOff d ≤ inst.memory.length)
    (hover : (inst.memory.length : ℤ) < (descOff d : ℤ) + descSz d) :
    parseOutput inst d = .err "parseOutput: invalid memory size" := by
  simp only [parseOutput]
  rw [if_neg (by omega), if_pos (by simp only [List.length_drop]; omega)]

theorem parseOutput_rejects_overlong_range_witness :
    parseOutput (memInst [0, 0, 0]) (packDesc 5 1) = .err "parseOutput: invalid memory size" :=
  parseOutput_rejects_overlong_range (memInst [0, 0, 0]) (packDesc 5 1)
    (by decide) (by decide) (by decide)

/-- C1 counterexample: the descriptor (length `1`, offset `5`) has
`offset + length = 6 > 4`, the size of the memory, so the claim demands the
typed `InvalidMemoryBounds` error; the source instead panics on
`Data()[pointer:]` because the offset alone is past the end of memory. -/
theorem parseOutput_oob_offset_panics :
    descOff (packDesc 1 5) = 5 ∧ descSz (packDesc 1 5) = 1 ∧
    (memInst [0, 0, 0, 0]).memory.length = 4 ∧
    parseOutput (memInst [0, 0, 0, 0]) (packDesc 1 5) = .panic "slice bounds out of range" :=
  ⟨by decide, by decide, by decide, by decide⟩

/-! ### Claim C2: single-buffer round trip -/

/-- C2 (amended): for every buffer `B` of fewer than `2^31` bytes and every
instance whose allocator returns an in-bounds offset (nonnegative as an
`int32`, with room for `B` up to the current memory size), storing `B` with
the Buffer Writer and parsing the returned descriptor yields exactly `B`. -/
theorem storeBuffer_parseOutput_round_trip (inst : Instance)
    (f : ℕ → ℕ → Except String (ℕ × ℕ)) (B : List ℕ) (p st' : ℕ)
    (hexp : inst.allocExp = some f)
    (hcall : f inst.allocSt B.length = .ok (p, st'))
    (hp : p < 2^31)
    (hin : p + B.length ≤ inst.memory.length)
    (hB : B.length < 2^31) :
    allocateInner inst B = .ok (packDesc B.length p,
      { inst with allocSt := st', memory := writeBytes inst.memory p B }) ∧
    parseOutput { inst with allocSt := st', memory := writeBytes inst.memory p B }
      (packDesc B.length p) = .ok B := by
  constructor
  · exact allocateInner_ok inst f B p st' hexp hcall hp hin
  · have hlen : ({ inst with allocSt := st', memory := writeBytes inst.memory p B} :
        Instance).memory.length = inst.memory.length :=
      writeBytes_length inst.memory B p hin
    rw [parseOutput_ok _ B.length p hB hp (by rw [hlen]; omega)]
    simp only [writeBytes_slice inst.memory B p hin]

theorem storeBuffer_parseOutput_round_trip_witness :
    allocateInner { memInst (List.replicate 8 0) with allocExp := some bumpAlloc } [9, 8, 7] =
      .ok (packDesc 3 0,
        { memInst (List.replicate 8 0) with
          allocExp := some bumpAlloc, allocSt := 3,
          memory := writeBytes (List.replicate 8 0) 0 [9, 8, 7] }) ∧
    parseOutput
        { memInst (List.replicate 8 0) with
          allocExp := some bumpAlloc, allocSt := 3,
          memory := writeBytes (List.replicate 8 0) 0 [9, 8, 7] }
        (packDesc 3 0) = .ok [9, 8, 7] :=
  storeBuffer_parseOutput_round_trip _ bumpAlloc [9, 8, 7] 0 3
    rfl rfl (by decide) (by decide) (by decide)

/-- C2 counterexample: with a `2^31`-byte memory and an allocator returning
the in-bounds offset `0`, storing a buffer of exactly `2^31` bytes succeeds
(descriptor pattern `2^63`: the sign bit of the length field is set), and
parsing that descriptor back faults on `make([]byte, sz)` with a negative `sz`
instead of returning the buffer — the round trip fails once the buffer size
reaches `2^31`. -/
theorem storeBuffer_round_trip_fails_at_two_pow_31 :
    0 + bigMem.length ≤ bigInstC2.memory.length ∧
    allocateInner bigInstC2 bigMem =
      .ok (2^63, { bigInstC2 with allocSt := 0, memory := writeBytes bigMem 0 bigMem }) ∧
    parseOutput { bigInstC2 with allocSt := 0, memory := writeBytes bigMem 0 bigMem } (2^63) =
      .panic "makeslice: len out of range" ∧
    parseOutput { bigInstC2 with allocSt := 0, memory := writeBytes bigMem 0 bigMem } (2^63) ≠
      .ok bigMem := by
  have hlen : bigMem.length = 2^31 := by rw [bigMem, List.length_replicate]
  have hmem : bigInstC2.memory = bigMem := rfl
  have hpack : packDesc (2^31) 0 = 2^63 := by decide
  have h2 : allocateInner bigInstC2 bigMem =
      .ok (2^63, { bigInstC2 with allocSt := 0, memory := writeBytes bigMem 0 bigMem }) := by
    have h := allocateInner_ok bigInstC2 (fun st _ => .ok (0, st)) bigMem 0 0
      rfl rfl (by decide) (by rw [hmem]; omega)
    rw [hmem, hlen, hpack] at h
    exact h
  have h3 : parseOutput { bigInstC2 with allocSt := 0, memory := writeBytes bigMem 0 bigMem }
      (2^63) = .panic "makeslice: len out of range" := by
    apply parseOutput_neg_sz
    · have hoffv : descOff (2^63) = 0 := by decide
      rw [hoffv]
      exact Nat.zero_le _
    · decide
  refine ⟨by rw [hmem]; omega, h2, h3, fun h => GoRes.noConfusion (h3.symm.trans h)⟩

/-! ### Claim C6: atomic failure of the Buffer-Array Writer -/

/-- Running the element loop over a concatenation splits into the two runs,
with the table index advanced past the first part. -/
theorem allocLoop_append (inst : Instance) (tp idx : ℕ) (l1 l2 : List (List ℕ)) :
    allocLoop inst tp idx (l1 ++ l2) =
      match allocLoop inst tp idx l1 with
      | .ok i' => allocLoop i' tp (idx + l1.length) l2
      | .err e => .err e
      | .panic s => .panic s := by
  induction l1 generalizing inst idx with
  | nil => simp [allocLoop]
  | cons d l1' ih =>
    simp only [List.cons_append, allocLoop]
    cases h : allocateInner inst d with
    | panic s => rfl
    | err e => rfl
    | ok v =>
      obtain ⟨loc, inst1⟩ := v
      have harith : idx + (d :: l1').length = (idx + 1) + l1'.length := by
        simp only [List.length_cons]
        omega
      rw [harith]
      exact ih _ (idx + 1)

/-- C6: the Buffer-Array Writer fails atomically: once the table is allocated,
if storing any element fails (the allocator call or its bounds validation
returns an error for that element), the whole `allocate` call returns that
error instead of an outer descriptor for a partially built table. -/
theorem allocate_fails_atomically (inst instT instP : Instance)
    (pre post : List (List ℕ)) (d : List ℕ) (tp : ℕ) (e : String)
    (htable : callAllocate inst (8 * (pre ++ d :: post).length) = .ok (tp, instT))
    (hpt : ¬(2^31 ≤ tp ∨ instT.memory.length < tp))
    (hsz : ¬(instT.memory.length - tp < 8 * (pre ++ d :: post).length))
    (hpre : allocLoop instT tp 0 pre = .ok instP)
    (hfail : allocateInner instP d = .err e) :
    allocate inst (pre ++ d :: post) = .err e := by
  simp only [allocate, htable]
  rw [if_neg hpt, if_neg hsz, allocLoop_append, hpre]
  simp only [allocLoop, hfail]

theorem allocate_fails_atomically_witness :
    allocate instC6 [[7], [8]] = .err "boom" :=
  allocate_fails_atomically instC6 { instC6 with allocSt := 1 } { instC6 with allocSt := 1 }
    [] [[8]] [7] 0 "boom" rfl (by decide) (by decide) rfl rfl

/-! ### Claim C7: the masked params-write error in `ParseRawData` -/

/-- C7: the source violates the claim: on an instance whose allocator fails
the params write (1-byte request) but serves the data write, `ParseRawData`
does not short-circuit with the params error — the error is overwritten
unchecked and the call proceeds (here to a successful result) with the zero
descriptor standing in for the params buffer. -/
theorem parseRawData_masks_params_write_error :
    storeParams instC7 [1] = .err "params trap" ∧
    ParseRawData (.ok instC7) [1] [2, 2] = .ok [] :=
  ⟨rfl, by decide⟩

/-! ### Claim C8: missing-export rejection for the seven operations -/

/-- A successful buffer write only changes the memory and the allocator state:
the function exports of the resulting instance are those of the input. -/
theorem allocateInner_exports (inst : Instance) (data : List ℕ) (v : ℕ) (i' : Instance)
    (h : allocateInner inst data = .ok (v, i')) :
    i'.parseParamsExp = inst.parseParamsExp ∧ i'.parseRawDataExp = inst.parseRawDataExp ∧
    i'.prepareExp = inst.prepareExp ∧ i'.executeExp = inst.executeExp := by
  rcases hE : inst.allocExp with _ | f
  · simp only [allocateInner, callAllocate, hE] at h
    exact GoRes.noConfusion h
  · rcases hf : f inst.allocSt data.length with e | ⟨r, st⟩
    · simp only [allocateInner, callAllocate, hE, hf] at h
      exact GoRes.noConfusion h
    · simp only [allocateInner, callAllocate, hE, hf] at h
      split at h
      · exact GoRes.noConfusion h
      · split at h
        · exact GoRes.noConfusion h
        · simp only [GoRes.ok.injEq, Prod.mk.injEq] at h
          obtain ⟨-, h2⟩ := h
          subst h2
          exact ⟨rfl, rfl, rfl, rfl⟩

/-- The element loop likewise leaves the function exports unchanged. -/
theorem allocLoop_exports (rest : List (List ℕ)) (inst : Instance) (tp idx : ℕ) (i' : Instance)
    (h : allocLoop inst tp idx rest = .ok i') :
    i'.parseParamsExp = inst.parseParamsExp ∧ i'.parseRawDataExp = inst.parseRawDataExp ∧
    i'.prepareExp = inst.prepareExp ∧ i'.executeExp = inst.executeExp := by
  induction rest generalizing inst idx with
  | nil =>
    simp only [allocLoop, GoRes.ok.injEq] at h
    subst h
    exact ⟨rfl, rfl, rfl, rfl⟩
  | cons d rest' ih =>
    simp only [allocLoop] at h
    cases ha : allocateInner inst d with
    | panic s =>
      simp only [ha] at h
      exact GoRes.noConfusion h
    | err e =>
      simp only [ha] at h
      exact GoRes.noConfusion h
    | ok v =>
      obtain ⟨loc, inst1⟩ := v
      simp only [ha] at h
      have h1 := ih { inst1 with memory := putU64 inst1.memory (tp + 8*idx) loc } (idx + 1) h
      have h2 := allocateInner_exports inst d loc inst1 ha
      exact ⟨h1.1.trans h2.1, h1.2.1.trans h2.2.1, h1.2.2.1.trans h2.2.2.1,
        h1.2.2.2.trans h2.2.2.2⟩

/-- The Buffer-Array Writer likewise leaves the function exports unchanged. -/
theorem allocate_exports (inst : Instance) (data : List (List ℕ)) (v : ℕ) (i' : Instance)
    (h : allocate inst data = .ok (v, i')) :
    i'.parseParamsExp = inst.parseParamsExp ∧ i'.parseRawDataExp = inst.parseRawDataExp ∧
    i'.prepareExp = inst.prepareExp ∧ i'.executeExp = inst.executeExp := by
  rcases hE : inst.allocExp with _ | f
  · simp only [allocate, callAllocate, hE] at h
    exact GoRes.noConfusion h
  · rcases hf : f inst.allocSt (8 * data.length) with e | ⟨r, st⟩
    · simp only [allocate, callAllocate, hE, hf] at h
      exact GoRes.noConfusion h
    · simp only [allocate, callAllocate, hE, hf] at h
      split at h
      · exact GoRes.noConfusion h
      · split at h
        · exact GoRes.noConfusion h
        · split at h
          · exact GoRes.noConfusion h
          · exact GoRes.noConfusion h
          · rename_i i2 hl
            simp only [GoRes.ok.injEq, Prod.mk.injEq] at h
            obtain ⟨-, h2⟩ := h
            subst h2
            have h3 := allocLoop_exports data _ _ 0 i2 hl
            exact ⟨h3.1, h3.2.1, h3.2.2.1, h3.2.2.2⟩

/-- C8: each of the seven public operations, invoked on an instantiated module
whose export table lacks the operation's named export — while the operation's
own input writes succeed — returns the failure naming that export
(`"<name> not implemented"`) rather than succeeding or faulting. -/
theorem missing_export_rejected (inst : Instance)
    (params data : List ℕ) (inputs : List (List ℕ))
    (p1 d1 a1 : ℕ) (inst1 inst2 inst3 : Instance)
    (hname : inst.nameExp = none)
    (hpinfo : inst.paramsInfoExp = none)
    (hpp : inst.parseParamsExp = none)
    (hrdinfo : inst.rawDataInfoExp = none)
    (hprd : inst.parseRawDataExp = none)
    (hprep : inst.prepareExp = none)
    (hexec : inst.executeExp = none)
    (hparams : storeParams inst params = .ok (p1, inst1))
    (hdata : allocateInner inst1 data = .ok (d1, inst2))
    (hinputs : allocate inst1 inputs = .ok (a1, inst3)) :
    Name (.ok inst) = .err "__name not implemented" ∧
    ParamsInfo (.ok inst) = .err "__params_info not implemented" ∧
    ParseParams (.ok inst) params = .err "__parse_params not implemented" ∧
    RawDataInfo (.ok inst) = .err "__raw_data_info not implemented" ∧
    ParseRawData (.ok inst) params data = .err "__parse_raw_data not implemented" ∧
    Prepare (.ok inst) params = .err "__prepare not implemented" ∧
    Execute (.ok inst) params inputs = .err "__execute not implemented" := by
  have u1 := allocateInner_exports inst params p1 inst1 hparams
  have u2 := allocateInner_exports inst1 data d1 inst2 hdata
  have u3 := allocate_exports inst1 inputs a1 inst3 hinputs
  refine ⟨?_, ?_, ?_, ?_, ?_, ?_, ?_⟩
  · simp only [Name, hname]
  · simp only [ParamsInfo, hpinfo]
  · simp only [ParseParams, hparams, u1.1, hpp]
  · simp only [RawDataInfo, hrdinfo]
  · simp only [ParseRawData, hparams, hdata, u2.2.1, u1.2.1, hprd]
  · simp only [Prepare, hparams, u1.2.2.1, hprep]
  · simp only [Execute, hparams, hinputs, u3.2.2.2, u1.2.2.2, hexec]

theorem missing_export_rejected_witness :
    Name (.ok instC8) = .err "__name not implemented" ∧
    ParamsInfo (.ok instC8) = .err "__params_info not implemented" ∧
    ParseParams (.ok instC8) [1] = .err "__parse_params not implemented" ∧
    RawDataInfo (.ok instC8) = .err "__raw_data_info not implemented" ∧
    ParseRawData (.ok instC8) [1] [2] = .err "__parse_raw_data not implemented" ∧
    Prepare (.ok instC8) [1] = .err "__prepare not implemented" ∧
    Execute (.ok instC8) [1] [[3]] = .err "__execute not implemented" :=
  missing_export_rejected instC8 [1] [2] [[3]] (packDesc 1 0) (packDesc 1 1) (packDesc 1 1)
    { instC8 with allocSt := 1, memory := writeBytes (List.replicate 64 0) 0 [1] }
    { instC8 with
      allocSt := 2, memory := writeBytes (writeBytes (List.replicate 64 0) 0 [1]) 1 [2] }
    { instC8 with
      allocSt := 10,
      memory := putU64 (writeBytes (writeBytes (List.replicate 64 0) 0 [1]) 9 [3]) 1
        (packDesc 1 9) }
    rfl rfl rfl rfl rfl rfl rfl rfl rfl rfl

/-! ### Claim C9: `Name` printability validation -/

/-- C9: for a result buffer of the guest's `__name` export consisting of ASCII
bytes (< 128, where the byte-level model of the unicode check is exact): if
every character is printable, `Name` returns the bytes verbatim; if the buffer
contains a control character (below `0x20`, or the delete character `0x7f`),
`Name` fails with the invalid-name error. -/
theorem name_printable_validation (inst : Instance) (dsc : ℕ) (buf : List ℕ)
    (hexp : inst.nameExp = some (.ok dsc))
    (hparse : parseOutput inst dsc = .ok buf)
    (hascii : ∀ b ∈ buf, b < 128) :
    ((∀ b ∈ buf, 0x20 ≤ b ∧ b ≤ 0x7e) → Name (.ok inst) = .ok buf) ∧
    ((∃ b ∈ buf, b < 0x20 ∨ b = 0x7f) → Name (.ok inst) = .err "Invalid name character") := by
  constructor
  · intro hall
    have hcheck : buf.all goIsPrint = true := by
      rw [List.all_eq_true]
      intro b hb
      have := hall b hb
      simp only [goIsPrint, Bool.and_eq_true, decide_eq_true_eq]
      omega
    simp only [Name, hexp, hparse, hcheck, if_true]
  · intro hbad
    obtain ⟨b, hb, hctl⟩ := hbad
    have hcheck : buf.all goIsPrint = false := by
      rw [Bool.eq_false_iff]
      intro hto
      rw [List.all_eq_true] at hto
      have := hto b hb
      simp only [goIsPrint, Bool.and_eq_true, decide_eq_true_eq] at this
      have hb128 := hascii b hb
      omega
    simp only [Name, hexp, hparse, hcheck, Bool.false_eq_true, if_false]

theorem name_printable_validation_witness :
    Name (.ok instC9) = .ok [72, 105, 33] ∧
    Name (.ok instC9bad) = .err "Invalid name character" :=
  ⟨(name_printable_validation instC9 (packDesc 3 0) [72, 105, 33]
      rfl (by decide) (by decide)).1 (by decide),
   (name_printable_validation instC9bad (packDesc 3 0) [72, 7, 33]
      rfl (by decide) (by decide)).2 (by decide)⟩

/-! ### Claim C10: input writes precede the export lookup -/

/-- C10 (amended): for `ParseParams`, `Prepare` and `Execute` the input
buffers are written (through `__allocate`, which is invoked without any
existence check — when it is missing the call faults on a nil function
instead of reporting a missing export) before the operation's own export is
looked up, so a failed write short-circuits with the write's error even when
the operation's export is missing, and a missing-export failure is reported
only after the writes succeeded.  For `ParseRawData` this holds only for the
data write: the params-write error is masked (the defect of C7), so its
missing-export failure certifies only that the data write succeeded. -/
theorem inputs_written_before_export_lookup
    (instA instB instC instD : Instance)
    (paramsA paramsB paramsC paramsD dataB dataD : List ℕ)
    (inputsA inputsC inputsD : List (List ℕ))
    (eA eB eC : String) (pB pC : ℕ) (instB1 instC1 : Instance)
    (hA : storeParams instA paramsA = .err eA)
    (hApp : instA.parseParamsExp = none)
    (hAprep : instA.prepareExp = none)
    (hAexec : instA.executeExp = none)
    (hB1 : storeParams instB paramsB = .ok (pB, instB1))
    (hB2 : allocateInner instB1 dataB = .err eB)
    (hBprd : instB.parseRawDataExp = none)
    (hC1 : storeParams instC paramsC = .ok (pC, instC1))
    (hC2 : allocate instC1 inputsC = .err eC)
    (hCexec : instC.executeExp = none)
    (hD : instD.allocExp = none) :
    ParseParams (.ok instA) paramsA = .err eA ∧
    Prepare (.ok instA) paramsA = .err eA ∧
    Execute (.ok instA) paramsA inputsA = .err eA ∧
    ParseRawData (.ok instB) paramsB dataB = .err eB ∧
    Execute (.ok instC) paramsC inputsC = .err eC ∧
    ParseParams (.ok instD) paramsD = .panic "call of nil function" ∧
    ParseRawData (.ok instD) paramsD dataD = .panic "call of nil function" ∧
    Prepare (.ok instD) paramsD = .panic "call of nil function" ∧
    Execute (.ok instD) paramsD inputsD = .panic "call of nil function" := by
  refine ⟨?_, ?_, ?_, ?_, ?_, ?_, ?_, ?_, ?_⟩
  · simp only [ParseParams, hA]
  · simp only [Prepare, hA]
  · simp only [Execute, hA]
  · simp only [ParseRawData, hB1, hB2]
  · simp only [Execute, hC1, hC2]
  · simp only [ParseParams, storeParams, allocateInner, callAllocate, hD]
  · simp only [ParseRawData, storeParams, allocateInner, callAllocate, hD]
  · simp only [Prepare, storeParams, allocateInner, callAllocate, hD]
  · simp only [Execute, storeParams, allocateInner, callAllocate, hD]

theorem inputs_written_before_export_lookup_witness :
    ParseParams (.ok instC10A) [1] = .err "wA" ∧
    Prepare (.ok instC10A) [1] = .err "wA" ∧
    Execute (.ok instC10A) [1] [[3]] = .err "wA" ∧
    ParseRawData (.ok instC10B) [1] [2, 2] = .err "wB" ∧
    Execute (.ok instC10C) [1] [[3]] = .err "wC" ∧
    ParseParams (.ok (memInst [0, 0, 0, 0])) [1] = .panic "call of nil function" ∧
    ParseRawData (.ok (memInst [0, 0, 0, 0])) [1] [2] = .panic "call of nil function" ∧
    Prepare (.ok (memInst [0, 0, 0, 0])) [1] = .panic "call of nil function" ∧
    Execute (.ok (memInst [0, 0, 0, 0])) [1] [[3]] = .panic "call of nil function" :=
  inputs_written_before_export_lookup instC10A instC10B instC10C (memInst [0, 0, 0, 0])
    [1] [1] [1] [1] [2, 2] [2] [[3]] [[3]] [[3]] "wA" "wB" "wC"
    (packDesc 1 0) (packDesc 1 0)
    { instC10B with allocSt := 0, memory := writeBytes [0, 0, 0, 0] 0 [1] }
    { instC10C with allocSt := 0, memory := writeBytes [0, 0, 0, 0] 0 [1] }
    rfl rfl rfl rfl rfl rfl rfl rfl rfl rfl rfl

/-- C10 counterexample: on an instance whose params write fails while the data
write succeeds, `ParseRawData` still reports the missing `__parse_raw_data`
export — so a missing-export failure is not reported "only when all input
writes have already succeeded". -/
theorem parseRawData_missing_export_after_failed_params_write :
    storeParams instC10 [1] = .err "pboom" ∧
    ParseRawData (.ok instC10) [1] [2, 2] = .err "__parse_raw_data not implemented" :=
  ⟨rfl, by decide⟩

/-! ### Claims C4 and C5: the Buffer-Array Writer under a well-behaved allocator -/

theorem totalSize_cons (d : List ℕ) (rest : List (List ℕ)) :
    totalSize (d :: rest) = d.length + totalSize rest := by
  simp [totalSize]

theorem sizesBefore_zero (data : List (List ℕ)) : sizesBefore data 0 = 0 := by
  simp [sizesBefore]

theorem sizesBefore_cons_succ (d : List ℕ) (rest : List (List ℕ)) (j : ℕ) :
    sizesBefore (d :: rest) (j + 1) = d.length + sizesBefore rest j := by
  simp [sizesBefore]

theorem sizesBefore_get_le (data : List (List ℕ)) (j : ℕ) (hj : j < data.length) :
    sizesBefore data j + (data.get ⟨j, hj⟩).length ≤ totalSize data := by
  induction data generalizing j with
  | nil => simp at hj
  | cons d rest ih =>
    cases j with
    | zero =>
      rw [sizesBefore_zero, totalSize_cons]
      simp [List.get]
    | succ j' =>
      rw [sizesBefore_cons_succ, totalSize_cons]
      have := ih j' (by simpa using hj)
      simp only [List.get]
      omega

/-- Under the bump allocator the element loop succeeds and produces exactly
the `layoutWrite` memory, with the allocator state advanced past all element
data. -/
theorem allocLoop_bump (rest : List (List ℕ)) (inst : Instance) (tp idx s : ℕ)
    (hexp : inst.allocExp = some bumpAlloc) (hst : inst.allocSt = s)
    (htp : tp + 8 * (idx + rest.length) ≤ s)
    (hs : s + totalSize rest ≤ inst.memory.length)
    (hL : inst.memory.length < 2^31) :
    allocLoop inst tp idx rest =
      .ok { inst with allocSt := s + totalSize rest,
                      memory := layoutWrite inst.memory tp idx s rest } := by
  induction rest generalizing inst idx s with
  | nil =>
    simp only [allocLoop, layoutWrite, totalSize, List.map_nil, List.sum_nil, Nat.add_zero]
    rw [← hst]
  | cons d rest' ih =>
    rw [List.length_cons] at htp
    rw [totalSize_cons] at hs
    have hsd : s + d.length ≤ inst.memory.length := by omega
    have hcall : bumpAlloc inst.allocSt d.length = .ok (s, s + d.length) := by
      rw [hst]
      rfl
    have hAI := allocateInner_ok inst bumpAlloc d s (s + d.length) hexp hcall
      (by omega) (by omega)
    simp only [allocLoop, hAI, layoutWrite, totalSize_cons]
    have hw1 : (writeBytes inst.memory s d).length = inst.memory.length :=
      writeBytes_length _ _ _ hsd
    have hw2 : (putU64 (writeBytes inst.memory s d) (tp + 8*idx)
        (packDesc d.length s)).length = inst.memory.length := by
      rw [putU64, writeBytes_length _ _ _ (by rw [le64_length, hw1]; omega), hw1]
    have harith : s + (d.length + totalSize rest') = (s + d.length) + totalSize rest' := by
      omega
    rw [harith]
    exact ih _ (idx + 1) (s + d.length) hexp rfl (by omega)
      (by show (s + d.length) + totalSize rest' ≤ (putU64 (writeBytes inst.memory s d)
            (tp + 8*idx) (packDesc d.length s)).length
          rw [hw2]
          omega)
      (by show (putU64 (writeBytes inst.memory s d) (tp + 8*idx)
            (packDesc d.length s)).length < 2^31
          rw [hw2]
          omega)

/-- `layoutWrite` preserves the memory size. -/
theorem layoutWrite_length (rest : List (List ℕ)) (m : List ℕ) (tp idx s : ℕ)
    (htp : tp + 8 * (idx + rest.length) ≤ s)
    (hs : s + totalSize rest ≤ m.length) :
    (layoutWrite m tp idx s rest).length = m.length := by
  induction rest generalizing m idx s with
  | nil => rfl
  | cons d rest' ih =>
    rw [List.length_cons] at htp
    rw [totalSize_cons] at hs
    have hw1 : (writeBytes m s d).length = m.length := writeBytes_length _ _ _ (by omega)
    have hw2 : (putU64 (writeBytes m s d) (tp + 8*idx) (packDesc d.length s)).length
        = m.length := by
      rw [putU64, writeBytes_length _ _ _ (by rw [le64_length, hw1]; omega), hw1]
    rw [layoutWrite, ih _ (idx + 1) (s + d.length) (by omega) (by rw [hw2]; omega), hw2]

/-- Bytes outside both the table slots from `idx` on and the data region from
`s` on are untouched by `layoutWrite`. -/
theorem layoutWrite_getElem_untouched (rest : List (List ℕ)) (m : List ℕ) (tp idx s q : ℕ)
    (htp : tp + 8 * (idx + rest.length) ≤ s)
    (hs : s + totalSize rest ≤ m.length)
    (hq : q < tp + 8 * idx ∨ (tp + 8 * (idx + rest.length) ≤ q ∧ q < s)) :
    (layoutWrite m tp idx s rest)[q]? = m[q]? := by
  induction rest generalizing m idx s with
  | nil => rfl
  | cons d rest' ih =>
    rw [List.length_cons] at htp hq
    rw [totalSize_cons] at hs
    have hw1 : (writeBytes m s d).length = m.length := writeBytes_length _ _ _ (by omega)
    have hw2 : (putU64 (writeBytes m s d) (tp + 8*idx) (packDesc d.length s)).length
        = m.length := by
      rw [putU64, writeBytes_length _ _ _ (by rw [le64_length, hw1]; omega), hw1]
    rw [layoutWrite,
      ih _ (idx + 1) (s + d.length) (by omega) (by rw [hw2]; omega) (by omega)]
    have h1 : (putU64 (writeBytes m s d) (tp + 8*idx) (packDesc d.length s))[q]?
        = (writeBytes m s d)[q]? := by
      rcases hq with hlt | ⟨hge, hlt⟩
      · exact writeBytes_getElem_before _ _ _ _ (by rw [le64_length, hw1]; omega) hlt
      · exact writeBytes_getElem_after _ _ _ _ (by rw [le64_length, hw1]; omega)
          (by rw [le64_length]; omega)
    have h2 : (writeBytes m s d)[q]? = m[q]? := by
      apply writeBytes_getElem_before _ _ _ _ (by omega)
      omega
    rw [h1, h2]

/-- After `layoutWrite`, table slot `j` holds the little-endian descriptor of
element `j`, and element `j`'s region holds its bytes. -/
theorem layoutWrite_content (rest : List (List ℕ)) (m : List ℕ) (tp idx s : ℕ)
    (htp : tp + 8 * (idx + rest.length) ≤ s)
    (hs : s + totalSize rest ≤ m.length) :
    ∀ j (hj : j < rest.length),
      sliceAt (layoutWrite m tp idx s rest) (tp + 8 * (idx + j)) 8 =
        le64 (packDesc (rest.get ⟨j, hj⟩).length (s + sizesBefore rest j)) ∧
      sliceAt (layoutWrite m tp idx s rest) (s + sizesBefore rest j)
          (rest.get ⟨j, hj⟩).length = rest.get ⟨j, hj⟩ := by
  induction rest generalizing m idx s with
  | nil =>
    intro j hj
    simp at hj
  | cons d rest' ih =>
    intro j hj
    rw [List.length_cons] at htp
    rw [totalSize_cons] at hs
    have hw1 : (writeBytes m s d).length = m.length := writeBytes_length _ _ _ (by omega)
    have hw2 : (putU64 (writeBytes m s d) (tp + 8*idx) (packDesc d.length s)).length
        = m.length := by
      rw [putU64, writeBytes_length _ _ _ (by rw [le64_length, hw1]; omega), hw1]
    set W := writeBytes m s d with hWdef
    set T := putU64 W (tp + 8*idx) (packDesc d.length s) with hTdef
    cases j with
    | zero =>
      rw [layoutWrite]
      simp only [List.get, sizesBefore_zero, Nat.add_zero]
      constructor
      · have hcg : sliceAt (layoutWrite T tp (idx+1) (s + d.length) rest') (tp + 8*idx) 8
            = sliceAt T (tp + 8*idx) 8 := by
          apply sliceAt_congr
          intro i hi
          apply layoutWrite_getElem_untouched rest' T tp (idx+1) (s + d.length)
            _ (by omega) (by rw [hw2]; omega)
          left
          omega
        rw [hcg]
        have hws := writeBytes_slice W (le64 (packDesc d.length s)) (tp + 8*idx)
          (by rw [le64_length, hw1]; omega)
        rw [le64_length] at hws
        exact hws
      · have hcg : sliceAt (layoutWrite T tp (idx+1) (s + d.length) rest') s d.length
            = sliceAt T s d.length := by
          apply sliceAt_congr
          intro i hi
          apply layoutWrite_getElem_untouched rest' T tp (idx+1) (s + d.length)
            _ (by omega) (by rw [hw2]; omega)
          right
          omega
        have hcg2 : sliceAt T s d.length = sliceAt W s d.length := by
          apply sliceAt_congr
          intro i hi
          rw [hTdef, putU64]
          exact writeBytes_getElem_after _ _ _ _ (by rw [le64_length, hw1]; omega)
            (by rw [le64_length]; omega)
        rw [hcg, hcg2, hWdef]
        exact writeBytes_slice m d s (by omega)
    | succ j' =>
      have hj' : j' < rest'.length := by simpa using hj
      rw [layoutWrite]
      have hih := ih T (idx + 1) (s + d.length) (by omega) (by rw [hw2]; omega) j' hj'
      have hget : (d :: rest').get ⟨j' + 1, hj⟩ = rest'.get ⟨j', hj'⟩ := rfl
      have e1 : tp + 8 * (idx + (j' + 1)) = tp + 8 * ((idx + 1) + j') := by omega
      have e2 : s + sizesBefore (d :: rest') (j' + 1) = (s + d.length) + sizesBefore rest' j' := by
        rw [sizesBefore_cons_succ]
        omega
      rw [hget, e1, e2]
      exact hih

/-- Full run of the Buffer-Array Writer under the bump allocator: the table is
allocated at `base` (8 bytes per element), the elements follow from
`base + 8*count` on, and the outer descriptor packs `(count, base)`. -/
theorem allocate_bump (inst : Instance) (data : List (List ℕ)) (base : ℕ)
    (hexp : inst.allocExp = some bumpAlloc) (hst : inst.allocSt = base)
    (hfit : base + 8 * data.length + totalSize data ≤ inst.memory.length)
    (hL : inst.memory.length < 2^31) :
    allocate inst data = .ok (packDesc data.length base,
      { inst with allocSt := base + 8 * data.length + totalSize data,
                  memory := layoutWrite inst.memory base 0 (base + 8 * data.length) data }) := by
  have hb : base % 2^32 = base := Nat.mod_eq_of_lt (by omega)
  simp only [allocate, callAllocate, hexp, bumpAlloc, hst, hb]
  rw [if_neg (by omega), if_neg (by omega)]
  rw [allocLoop_bump data
    { inst with allocSt := base + 8 * data.length, allocExp := some bumpAlloc } base 0
    (base + 8 * data.length) rfl rfl (by omega)
    (by show base + 8 * data.length + totalSize data ≤ inst.memory.length
        omega)
    (by show inst.memory.length < 2^31
        omega)]

/-- C4: for every ordered sequence of buffers, the Buffer-Array Writer (under
the bump allocator, with memory large enough and below the `2^31` signed
bound) requests `8 * count` bytes for the table at `base`, writes element
`j`'s descriptor as 8 little-endian bytes at table offset `8*j`, returns
`pack(count, base)` as the outer descriptor, and dereferencing each table
entry yields the original buffers in the original order. -/
theorem storeBufferArray_round_trip (inst : Instance) (data : List (List ℕ)) (base : ℕ)
    (hexp : inst.allocExp = some bumpAlloc) (hst : inst.allocSt = base)
    (hfit : base + 8 * data.length + totalSize data ≤ inst.memory.length)
    (hL : inst.memory.length < 2^31) :
    allocate inst data = .ok (packDesc data.length base,
      { inst with allocSt := base + 8 * data.length + totalSize data,
                  memory := layoutWrite inst.memory base 0 (base + 8 * data.length) data }) ∧
    ∀ j (hj : j < data.length),
      readElem (layoutWrite inst.memory base 0 (base + 8 * data.length) data) base j =
        .ok (data.get ⟨j, hj⟩) := by
  refine ⟨allocate_bump inst data base hexp hst hfit hL, ?_⟩
  intro j hj
  have hcont := layoutWrite_content data inst.memory base 0 (base + 8 * data.length)
    (by omega) (by omega) j hj
  simp only [Nat.zero_add] at hcont
  have hMlen : (layoutWrite inst.memory base 0 (base + 8 * data.length) data).length
      = inst.memory.length :=
    layoutWrite_length data inst.memory base 0 _ (by omega) (by omega)
  have hjle := sizesBefore_get_le data j hj
  have hsz_lt : (data.get ⟨j, hj⟩).length < 2^31 := by omega
  have hoff_lt : base + 8 * data.length + sizesBefore data j < 2^31 := by omega
  have hpacklt : packDesc (data.get ⟨j, hj⟩).length
      (base + 8 * data.length + sizesBefore data j) < 2^64 := by
    rw [packDesc_eq _ _ hsz_lt hoff_lt]
    nlinarith [hsz_lt, hoff_lt]
  have h64 : readU64LE (layoutWrite inst.memory base 0 (base + 8 * data.length) data)
      (base + 8 * j)
      = packDesc (data.get ⟨j, hj⟩).length (base + 8 * data.length + sizesBefore data j) := by
    show leDecode (sliceAt (layoutWrite inst.memory base 0 (base + 8 * data.length) data)
      (base + 8 * j) 8) = _
    rw [hcont.1]
    exact leDecode_le64 _ hpacklt
  rw [readElem, h64, parseOutput_ok _ _ _ hsz_lt hoff_lt
    (by show base + 8 * data.length + sizesBefore data j + (data.get ⟨j, hj⟩).length ≤
          (layoutWrite inst.memory base 0 (base + 8 * data.length) data).length
        rw [hMlen]
        omega)]
  have hfix : sliceAt (memInst (layoutWrite inst.memory base 0 (base + 8 * data.length)
      data)).memory (base + 8 * data.length + sizesBefore data j)
      (data.get ⟨j, hj⟩).length = data.get ⟨j, hj⟩ := hcont.2
  rw [hfix]

theorem storeBufferArray_round_trip_witness :
    allocate instC4 [[1, 2], [3]] = .ok (packDesc 2 0,
      { instC4 with
        allocSt := 19, memory := layoutWrite (List.replicate 32 0) 0 0 16 [[1, 2], [3]] }) ∧
    readElem (layoutWrite (List.replicate 32 0) 0 0 16 [[1, 2], [3]]) 0 0 = .ok [1, 2] ∧
    readElem (layoutWrite (List.replicate 32 0) 0 0 16 [[1, 2], [3]]) 0 1 = .ok [3] :=
  have h := storeBufferArray_round_trip instC4 [[1, 2], [3]] 0 rfl rfl (by decide) (by decide)
  ⟨h.1, h.2 0 (by decide), h.2 1 (by decide)⟩

/-! ### Claim C5: the outer descriptor's length field -/

/-- C5 counterexample: storing the one-element Buffer Array `[[5]]` returns
the outer descriptor `pack(1, 0)`, whose length field is the element count
`1`, not `8 * 1` (the byte size of the descriptor table). -/
theorem allocate_outer_length_not_eight_times_count :
    allocate instC5x [[5]] = .ok (packDesc 1 0,
      { instC5x with
        allocSt := 9, memory := layoutWrite (List.replicate 16 0) 0 0 8 [[5]] }) ∧
    descSz (packDesc 1 0) = 1 ∧ descSz (packDesc 1 0) ≠ 8 * 1 :=
  ⟨rfl, by decide, by decide⟩

/-- C5 (amended): the outer descriptor returned by the Buffer-Array Writer
has its length field equal to the element count (the table occupies
`8 * element_count` bytes of guest memory, but the field stores the count). -/
theorem allocate_outer_descriptor_length_is_count (inst : Instance) (data : List (List ℕ))
    (base : ℕ)
    (hexp : inst.allocExp = some bumpAlloc) (hst : inst.allocSt = base)
    (hfit : base + 8 * data.length + totalSize data ≤ inst.memory.length)
    (hL : inst.memory.length < 2^31) :
    allocate inst data = .ok (packDesc data.length base,
      { inst with allocSt := base + 8 * data.length + totalSize data,
                  memory := layoutWrite inst.memory base 0 (base + 8 * data.length) data }) ∧
    descSz (packDesc data.length base) = data.length ∧
    descOff (packDesc data.length base) = base := by
  have hk : data.length < 2^31 := by omega
  have hbase : base < 2^31 := by omega
  refine ⟨allocate_bump inst data base hexp hst hfit hL, ?_, ?_⟩
  · rw [packDesc_eq _ _ hk hbase, descSz_pack _ _ hk (by omega)]
  · rw [packDesc_eq _ _ hk hbase, descOff_pack _ _ (by omega)]

theorem allocate_outer_descriptor_length_is_count_witness :
    allocate instC5w [[5], [6]] = .ok (packDesc 2 0,
      { instC5w with
        allocSt := 18, memory := layoutWrite (List.replicate 24 0) 0 0 16 [[5], [6]] }) ∧
    descSz (packDesc 2 0) = 2 ∧ descOff (packDesc 2 0) = 0 :=
  allocate_outer_descriptor_length_is_count instC5w [[5], [6]] 0 rfl rfl
    (by decide) (by decide)
